import Mathlib

/-!
Verification of the bit-level stream reader from `coliru/07ada2f480ba99ab.cpp`.

The C++ core consists of the pure byte primitives `select` and `shift`, the
extraction function `next` (with its `Ctrl` helper computing byte indices,
local bit positions and bit counts), and the `doNext` facade that advances the
read cursor of a reader `A`.

Machine integers are modelled as `Nat` with explicit `% 256` wherever the C++
converts to `std::uint8_t`.  In particular `Ctrl::ByteIndex` is
`std::uint8_t`, so the byte indices `cursor / 8` and `(cursor + n - 1) / 8`
are truncated modulo 256 — this truncation is modelled faithfully.
Assertion failure (fail-fast) is modelled by `Option`: the checked entry
points return `none` exactly when an `assert` in the C++ would fire.
-/

namespace BitReader

/-- Model of C++ `select(data, start, stop)`:
`data & (0xFF >> (7 - stop)) & (0xFF << start)`.
The `% 256` models the `std::uint8_t` parameter type. -/
def select (data start stop : Nat) : Nat :=
  data % 256 &&& (255 >>> (7 - stop)) &&& (255 <<< start)

/-- Precondition asserted by C++ `select`:
`assert(start < 8); assert(stop < 8); assert(stop >= start)`. -/
def selectPre (start stop : Nat) : Prop :=
  start < 8 ∧ stop < 8 ∧ start ≤ stop

instance (start stop : Nat) : Decidable (selectPre start stop) := by
  unfold selectPre; infer_instance

/-- Model of C++ `shift(data, start, offset)`: `(data >> start) << offset`,
converted back to `std::uint8_t` on return (the outer `% 256`). -/
def shift (data start offset : Nat) : Nat :=
  (((data % 256) >>> start) <<< offset) % 256

/-- Precondition asserted by C++ `shift`:
`assert(start < 8); assert(offset <= 8)`. -/
def shiftPre (start offset : Nat) : Prop :=
  start < 8 ∧ offset ≤ 8

/-- Field `Ctrl::pos.first = BitPosition(cursor % 8)`. -/
def posFirst (cursor : Nat) : Nat := cursor % 8

/-- Field `Ctrl::pos.second = BitPosition((cursor + n - 1) % 8)`. -/
def posSecond (cursor n : Nat) : Nat := (cursor + n - 1) % 8

/-- Field `Ctrl::twoBytes = pos.second < pos.first`. -/
def twoBytes (cursor n : Nat) : Bool := posSecond cursor n < posFirst cursor

/-- Field `Ctrl::byte.first = ByteIndex(cursor / 8)`.  `ByteIndex` is
`std::uint8_t`, hence the truncation `% 256`. -/
def byteFirst (cursor : Nat) : Nat := cursor / 8 % 256

/-- Field `Ctrl::byte.second = ByteIndex((cursor + n - 1) / 8)`, truncated to
8 bits like `byte.first`. -/
def byteSecond (cursor n : Nat) : Nat := (cursor + n - 1) / 8 % 256

/-- Field `Ctrl::count.first = min(8 - pos.first, BitCount(n))`; `BitCount` is
`std::uint8_t`, hence `n % 256`. -/
def countFirst (cursor n : Nat) : Nat := min (8 - posFirst cursor) (n % 256)

/-- Field `Ctrl::count.second = twoBytes ? pos.second + 1 : 0`. -/
def countSecond (cursor n : Nat) : Nat :=
  if twoBytes cursor n then posSecond cursor n + 1 else 0

/-- Field `Ctrl::range.first = {pos.first, twoBytes ? 7 : pos.second}`. -/
def rangeFirst (cursor n : Nat) : Nat × Nat :=
  (posFirst cursor, if twoBytes cursor n then 7 else posSecond cursor n)

/-- Field `Ctrl::range.second = {0, twoBytes ? pos.second : 0}`. -/
def rangeSecond (cursor n : Nat) : Nat × Nat :=
  (0, if twoBytes cursor n then posSecond cursor n else 0)

/-- Model of C++ `next(data, cursor, n)` (the body after the assertions):
computes `first` and `second` from the `Ctrl` fields and returns
`(twoBytes ? first | second : first, cursor + n)`.  Buffer access
`data[i]` is modelled by `List.getD data i 0`. -/
def next (data : List Nat) (cursor n : Nat) : Nat × Nat :=
  let first := shift (select (data.getD (byteFirst cursor) 0)
      (rangeFirst cursor n).1 (rangeFirst cursor n).2) (rangeFirst cursor n).1 0
  let second := shift (select (data.getD (byteSecond cursor n) 0)
      (rangeSecond cursor n).1 (rangeSecond cursor n).2) (rangeSecond cursor n).1
      (countFirst cursor n)
  (if twoBytes cursor n then first ||| second else first, cursor + n)

/-- Precondition asserted at the top of C++ `next`:
`assert(n > 0); assert(n <= 8); assert((cursor + n) <= (8 * N))`. -/
def nextPre (N cursor n : Nat) : Prop :=
  0 < n ∧ n ≤ 8 ∧ cursor + n ≤ 8 * N

instance (N cursor n : Nat) : Decidable (nextPre N cursor n) := by
  unfold nextPre; infer_instance

/-- Assert-guarded extraction: `next` fails fast (modelled by `none`) when an
assertion at its head would fire. -/
def nextChecked (data : List Nat) (cursor n : Nat) : Option (Nat × Nat) :=
  if nextPre data.length cursor n then some (next data cursor n) else none

/-- Model of the anonymous cursor struct of `A`:
`struct { std::size_t read = 0; std::size_t write = 0; } cursor`. -/
structure Cursor where
  read : Nat := 0
  write : Nat := 0
deriving DecidableEq

/-- Model of the reader `A<N>`: a borrowed byte buffer plus an owned cursor. -/
structure A where
  data : List Nat
  cursor : Cursor := {}
deriving DecidableEq

/-- Model of C++ `doNext<n>(t)`: runs
`next(t.data, t.cursor.read, std::uint8_t(n))` and stores the returned
position in `t.cursor.read`.  The width is converted through `std::uint8_t`
at the call, hence the `n % 256`.  An assertion failure inside `next` aborts
before the cursor is written, which is modelled by returning `none` together
with the unchanged state. -/
def doNext (n : Nat) (t : A) : Option Nat × A :=
  match nextChecked t.data t.cursor.read (n % 256) with
  | some r => (some r.1, { t with cursor := { t.cursor with read := r.2 } })
  | none => (none, t)

/-- Buffer of 257 bytes whose byte 0 is 1 and whose bytes 1..256 are 0.
Exercises the `std::uint8_t` truncation of `Ctrl::ByteIndex`: at bit cursor
2048 the extraction should read byte 256 but reads byte `uint8(256) = 0`. -/
def bufWrap : List Nat := 1 :: List.replicate 256 0

/-- All-zero buffer of 257 bytes, agreeing with `bufWrap` on every byte
except byte 0. -/
def bufZero : List Nat := 0 :: List.replicate 256 0

/-- Bit pattern of the literal byte mask `0xFF`. -/
theorem testBit_255 (i : Nat) : Nat.testBit 255 i = decide (i < 8) := by
  have h : (255 : Nat) = 2 ^ 8 - 1 := by norm_num
  rw [h, Nat.testBit_two_pow_sub_one]

/-- C3: for a byte `b` and positions satisfying the asserted precondition
`start ≤ stop ≤ 7`, `select b start stop` keeps exactly the bits of `b` inside
the inclusive range `[start, stop]` and clears all others; positions with
`stop < start` or a bound above 7 violate the precondition (fail fast). -/
theorem select_spec (b start stop : Nat) (hb : b < 256) :
    (selectPre start stop →
      ∀ i, (select b start stop).testBit i =
        (decide (start ≤ i ∧ i ≤ stop) && b.testBit i)) ∧
    ((stop < start ∨ 7 < start ∨ 7 < stop) → ¬ selectPre start stop) := by
  constructor
  · intro hpre i
    obtain ⟨h1, h2, h3⟩ := hpre
    simp only [select]
    rw [show (256 : Nat) = 2 ^ 8 by norm_num]
    simp only [Nat.testBit_and, Nat.testBit_mod_two_pow,
      Nat.testBit_shiftRight, Nat.testBit_shiftLeft, testBit_255]
    cases hbi : b.testBit i <;> simp only [hbi, Bool.and_false, Bool.false_and,
      Bool.and_true, Bool.true_and]
    rw [Bool.eq_iff_iff]
    simp only [Bool.and_eq_true, decide_eq_true_eq, ge_iff_le]
    omega
  · intro h hpre
    unfold selectPre at hpre
    omega

/-- Witness for `select_spec` at `b = 0xB5`, `start = 2`, `stop = 5`, `i = 3`. -/
theorem select_spec_witness :
    (select 181 2 5).testBit 3 =
      (decide (2 ≤ 3 ∧ 3 ≤ 5) && (181 : Nat).testBit 3) :=
  (select_spec 181 2 5 (by decide)).1 (by decide) 3

/-- C4: under the asserted preconditions, `shift b start offset` is the
arithmetic value `(b >> start) << offset` truncated to 8 bits. -/
theorem shift_spec (b start offset : Nat) (hb : b < 256) (hs : start ≤ 7)
    (ho : offset ≤ 8) :
    shift b start offset = b / 2 ^ start * 2 ^ offset % 2 ^ 8 := by
  unfold shift
  rw [Nat.mod_eq_of_lt hb, Nat.shiftRight_eq_div_pow, Nat.shiftLeft_eq]
  norm_num

/-- Witness for `shift_spec` at `b = 0xB5`, `start = 3`, `offset = 6`. -/
theorem shift_spec_witness :
    181 < 256 ∧ shift 181 3 6 = 181 / 2 ^ 3 * 2 ^ 6 % 2 ^ 8 :=
  ⟨by decide, shift_spec 181 3 6 (by decide) (by decide) (by decide)⟩

/-- C2: under the preconditions of `next`, the assertions of the `Ctrl`
constructor hold (`count.first + count.second = n`,
`count.second = max(n - count.first, 0)`, both byte indices below `N`), so
both buffer accesses performed by `next` are in bounds. -/
theorem ctrl_invariants_hold (data : List Nat) (cursor n : Nat)
    (h1 : 0 < n) (h2 : n ≤ 8) (h3 : cursor + n ≤ 8 * data.length) :
    countFirst cursor n + countSecond cursor n = n ∧
    countSecond cursor n = max (n - countFirst cursor n) 0 ∧
    byteFirst cursor < data.length ∧
    byteSecond cursor n < data.length := by
  unfold countFirst countSecond byteFirst byteSecond twoBytes posFirst posSecond
  by_cases htwo : (cursor + n - 1) % 8 < cursor % 8 <;> simp [htwo] <;> omega

/-- Witness for `ctrl_invariants_hold` on a 2-byte buffer at `cursor = 5`,
`n = 7` (a byte-crossing field). -/
theorem ctrl_invariants_hold_witness :
    countFirst 5 7 + countSecond 5 7 = 7 ∧
    countSecond 5 7 = max (7 - countFirst 5 7) 0 ∧
    byteFirst 5 < ([253, 138] : List Nat).length ∧
    byteSecond 5 7 < ([253, 138] : List Nat).length :=
  ctrl_invariants_hold [253, 138] 5 7 (by decide) (by decide) (by decide)

/-- C7: on a buffer of `N` bytes, extraction of `n ∈ [1,8]` bits at position
`8N - n` satisfies the precondition and succeeds, while at `8N - n + 1` the
precondition `cursor + n ≤ 8N` fails and the call fails fast (`none`), not
silently truncated or wrapped. -/
theorem next_boundary (data : List Nat) (n : Nat) (h1 : 1 ≤ n) (h2 : n ≤ 8)
    (h3 : n ≤ 8 * data.length) :
    (nextChecked data (8 * data.length - n) n).isSome = true ∧
    nextChecked data (8 * data.length - n + 1) n = none := by
  have hp : nextPre data.length (8 * data.length - n) n := by
    unfold nextPre; omega
  have hq : ¬ nextPre data.length (8 * data.length - n + 1) n := by
    unfold nextPre; omega
  unfold nextChecked
  rw [if_pos hp, if_neg hq]
  exact ⟨rfl, rfl⟩

/-- Witness for `next_boundary` on the 1-byte buffer `[0xFD]` with `n = 3`. -/
theorem next_boundary_witness :
    ((nextChecked [253] (8 * ([253] : List Nat).length - 3) 3).isSome = true ∧
     nextChecked [253] (8 * ([253] : List Nat).length - 3 + 1) 3 = none) :=
  next_boundary [253] 3 (by decide) (by decide) (by decide)

/-- Every entry read out of a buffer of bytes is below 256 (the default 0
included). -/
theorem getD_lt_256 (data : List Nat) (hb : ∀ x ∈ data, x < 256) (i : Nat) :
    data.getD i 0 < 256 := by
  induction data generalizing i with
  | nil => simp [List.getD]
  | cons a l ih =>
    cases i with
    | zero => simpa using hb a (by simp)
    | succ j => simpa using ih (fun x hx => hb x (by simp [hx])) j

/-- Bit-level characterisation of `select` under its precondition. -/
theorem select_testBit (b s e i : Nat) (hse : s ≤ e) (he : e ≤ 7) :
    (select b s e).testBit i = (decide (s ≤ i ∧ i ≤ e) && b.testBit i) := by
  simp only [select]
  rw [show (256 : Nat) = 2 ^ 8 by norm_num]
  simp only [Nat.testBit_and, Nat.testBit_mod_two_pow,
    Nat.testBit_shiftRight, Nat.testBit_shiftLeft, testBit_255]
  cases hbi : b.testBit i <;> simp only [hbi, Bool.and_false, Bool.false_and,
    Bool.and_true, Bool.true_and]
  all_goals (simp only [← Bool.decide_and, ge_iff_le]
             try rw [decide_eq_decide]
             try omega)

/-- Bit-level characterisation of `shift`. -/
theorem shift_testBit (b s o i : Nat) :
    (shift b s o).testBit i =
      (decide (i < 8 ∧ o ≤ i ∧ s + (i - o) < 8) && b.testBit (s + (i - o))) := by
  simp only [shift]
  rw [show (256 : Nat) = 2 ^ 8 by norm_num]
  simp only [Nat.testBit_mod_two_pow, Nat.testBit_shiftLeft,
    Nat.testBit_shiftRight, ge_iff_le]
  cases hbi : b.testBit (s + (i - o)) <;> simp only [hbi, Bool.and_false,
    Bool.false_and, Bool.and_true, Bool.true_and]
  all_goals (simp only [← Bool.decide_and, ge_iff_le]
             try rw [decide_eq_decide]
             try omega)

/-- The returned cursor of `next` is always `cursor + n`. -/
theorem next_snd (data : List Nat) (cursor n : Nat) :
    (next data cursor n).2 = cursor + n := rfl

/-- Closed form of the extracted value when the field lies within a single
byte: the bits of the (index-truncated) first byte from local position
`p % 8` upward, masked to `n` bits. -/
theorem next_fst_single (data : List Nat) (p n : Nat) (h1 : 0 < n)
    (hsn : p % 8 + n ≤ 8) :
    (next data p n).1 = data.getD (byteFirst p) 0 % 256 / 2 ^ (p % 8) % 2 ^ n := by
  have htwo : twoBytes p n = false := by
    simp only [twoBytes, posFirst, posSecond, decide_eq_false_iff_not]
    omega
  have he : posSecond p n = p % 8 + n - 1 := by
    simp only [posSecond]; omega
  simp only [next, rangeFirst, rangeSecond, htwo, if_false, Bool.false_eq_true,
    he, posFirst]
  apply Nat.eq_of_testBit_eq
  intro i
  rw [shift_testBit, select_testBit _ _ _ _ (by omega) (by omega)]
  rw [show (256 : Nat) = 2 ^ 8 by norm_num, ← Nat.shiftRight_eq_div_pow]
  simp only [Nat.testBit_mod_two_pow, Nat.testBit_shiftRight, Nat.sub_zero]
  cases hbi : (data.getD (byteFirst p) 0).testBit (p % 8 + i) <;>
    simp only [hbi, Bool.and_false, Bool.false_and, Bool.and_true, Bool.true_and]
  all_goals (simp only [← Bool.decide_and, ge_iff_le]
             try rw [decide_eq_decide]
             try omega)

/-- Master bit-level correctness of `next` for buffers of at most 256 bytes
(no `ByteIndex` truncation): bit `j` of the extracted value is global bit
`p + j` of the buffer for `j < n` and zero for `j ≥ n`. -/
theorem next_testBit (data : List Nat) (p n : Nat)
    (h1 : 0 < n) (h2 : n ≤ 8) (h3 : p + n ≤ 8 * data.length)
    (hL : data.length ≤ 256) (j : Nat) :
    (next data p n).1.testBit j =
      (decide (j < n) && (data.getD ((p + j) / 8) 0).testBit ((p + j) % 8)) := by
  have hbf : byteFirst p = p / 8 := by
    simp only [byteFirst]; omega
  rcases le_or_lt (p % 8 + n) 8 with hsn | hsn
  · rw [next_fst_single data p n h1 hsn, hbf]
    rw [show (256 : Nat) = 2 ^ 8 by norm_num, ← Nat.shiftRight_eq_div_pow]
    simp only [Nat.testBit_mod_two_pow, Nat.testBit_shiftRight]
    rcases Nat.lt_or_ge j n with hj | hj
    · have e1 : (p + j) / 8 = p / 8 := by omega
      have e2 : (p + j) % 8 = p % 8 + j := by omega
      rw [e1, e2]
      cases ht : (data.getD (p / 8) 0).testBit (p % 8 + j) <;>
        simp only [ht, Bool.and_false, Bool.and_true] <;>
        (simp only [← Bool.decide_and]
         try rw [decide_eq_decide]
         try omega)
    · have hj' : ¬ j < n := by omega
      simp [hj']
  · have htwo : twoBytes p n = true := by
      simp only [twoBytes, posFirst, posSecond, decide_eq_true_eq]; omega
    have he : posSecond p n = p % 8 + n - 9 := by
      simp only [posSecond]; omega
    have hbs : byteSecond p n = p / 8 + 1 := by
      simp only [byteSecond]; omega
    have hcf : countFirst p n = 8 - p % 8 := by
      simp only [countFirst, posFirst]; omega
    simp only [next, rangeFirst, rangeSecond, htwo, if_true, he, hbf, hbs, hcf,
      posFirst]
    rw [Nat.testBit_or, shift_testBit, shift_testBit,
      select_testBit _ _ _ _ (by omega) (by omega),
      select_testBit _ _ _ _ (by omega) (by omega)]
    simp only [Nat.sub_zero, Nat.zero_add]
    rcases Nat.lt_or_ge j (8 - p % 8) with hj1 | hj1
    · have e1 : (p + j) / 8 = p / 8 := by omega
      have e2 : (p + j) % 8 = p % 8 + j := by omega
      rw [e1, e2]
      have hk : ¬ (8 - p % 8 ≤ j) := by omega
      have hjn : j < n := by omega
      cases ht : (data.getD (p / 8) 0).testBit (p % 8 + j) <;>
        simp [ht, hk, hjn] <;> omega
    · rcases Nat.lt_or_ge j n with hj2 | hj2
      · have e1 : (p + j) / 8 = p / 8 + 1 := by omega
        have e2 : (p + j) % 8 = j - (8 - p % 8) := by omega
        rw [e1, e2]
        have hk : ¬ (p % 8 + j < 8) := by omega
        cases ht : (data.getD (p / 8 + 1) 0).testBit (j - (8 - p % 8)) <;>
          simp [ht, hk, hj2] <;> omega
      · have hk1 : ¬ (p % 8 + j < 8) := by omega
        have hk2 : ¬ (j - (8 - p % 8) ≤ p % 8 + n - 9) := by omega
        have hk3 : ¬ j < n := by omega
        simp [hk1, hk2, hk3]

/-- Concatenating a low `n1`-bit slice with the following `n2`-bit slice
shifted up by `n1` recovers the `n1 + n2`-bit slice. -/
theorem lor_shift_combine (x n1 n2 : Nat) :
    x % 2 ^ n1 ||| ((x / 2 ^ n1 % 2 ^ n2) <<< n1) = x % 2 ^ (n1 + n2) := by
  apply Nat.eq_of_testBit_eq
  intro i
  rw [← Nat.shiftRight_eq_div_pow]
  simp only [Nat.testBit_or, Nat.testBit_mod_two_pow, Nat.testBit_shiftLeft,
    Nat.testBit_shiftRight, ge_iff_le]
  rcases Nat.lt_or_ge i n1 with hi | hi
  · have hk : ¬ (n1 ≤ i) := by omega
    have hi2 : i < n1 + n2 := by omega
    cases ht : x.testBit i <;> simp [ht, hk, hi, hi2]
  · rw [show n1 + (i - n1) = i by omega]
    have hk : ¬ (i < n1) := by omega
    cases ht : x.testBit i <;> simp [ht, hk, hi]
    try rw [decide_eq_decide]
    try omega

/-- Full-byte passthrough for buffers without index truncation: 8 bits read
at a byte-aligned position return the addressed byte unchanged. -/
theorem next_full_byte_passthrough (data : List Nat) (p : Nat)
    (hb : ∀ x ∈ data, x < 256) (hp : p % 8 = 0) (hcap : p + 8 ≤ 8 * data.length)
    (hL : data.length ≤ 256) :
    next data p 8 = (data.getD (p / 8) 0, p + 8) := by
  have hbf : byteFirst p = p / 8 := by
    simp only [byteFirst]; omega
  have h := next_fst_single data p 8 (by omega) (by omega)
  rw [hp, hbf] at h
  have hlt : data.getD (p / 8) 0 < 256 := getD_lt_256 data hb (p / 8)
  have hfst : (next data p 8).1 = data.getD (p / 8) 0 := by
    rw [h, Nat.mod_eq_of_lt hlt, pow_zero, Nat.div_one,
      show (2 : Nat) ^ 8 = 256 by norm_num]
    exact Nat.mod_eq_of_lt hlt
  exact Prod.ext hfst (next_snd data p 8)

set_option maxRecDepth 8192 in
/-- C1 (failing input for the bit-level extraction contract): on the 257-byte
buffer `bufWrap` at cursor 2048 with `n = 1`, all preconditions hold, yet the
extracted bit 0 is 1 while global bit 2048 of the buffer (bit 0 of byte 256)
is 0: the 8-bit `ByteIndex` wraps byte index 256 to 0. -/
theorem next_truncation_failure :
    (0 < 1 ∧ 1 ≤ 8 ∧ 2048 + 1 ≤ 8 * bufWrap.length ∧ (∀ x ∈ bufWrap, x < 256)) ∧
    (next bufWrap 2048 1).1.testBit 0 = true ∧
    (bufWrap.getD (2048 / 8) 0).testBit (2048 % 8) = false ∧
    (next bufWrap 2048 1).2 = 2048 + 1 := by
  decide

/-- C5: for same-byte fields, reading `n1` bits at `p` and then `n2` bits at
`p + n1` and concatenating under the little-endian packing rule gives the
value of a single read of `n1 + n2` bits at `p`. -/
theorem next_compose_same_byte (data : List Nat) (p n1 n2 : Nat)
    (h1 : 1 ≤ n1) (h2 : 1 ≤ n2) (hs : p % 8 + n1 + n2 ≤ 8)
    (hcap : p + n1 + n2 ≤ 8 * data.length) :
    (next data p n1).1 ||| ((next data (p + n1) n2).1 <<< n1) =
      (next data p (n1 + n2)).1 := by
  have hb2 : byteFirst (p + n1) = byteFirst p := by
    simp only [byteFirst]; omega
  rw [next_fst_single data p n1 (by omega) (by omega),
    next_fst_single data (p + n1) n2 (by omega) (by omega),
    next_fst_single data p (n1 + n2) (by omega) (by omega), hb2,
    show (p + n1) % 8 = p % 8 + n1 by omega]
  rw [pow_add, ← Nat.div_div_eq_div_mul]
  exact lor_shift_combine (data.getD (byteFirst p) 0 % 256 / 2 ^ (p % 8)) n1 n2

/-- Witness for `next_compose_same_byte` on the buffer `[0xFD, 0x8A, 0xF7]`
at `p = 1`, `n1 = 2`, `n2 = 3`. -/
theorem next_compose_same_byte_witness :
    (next [253, 138, 247] 1 2).1 ||| ((next [253, 138, 247] (1 + 2) 3).1 <<< 2) =
      (next [253, 138, 247] 1 (2 + 3)).1 :=
  next_compose_same_byte [253, 138, 247] 1 2 3 (by decide) (by decide)
    (by decide) (by decide)

set_option maxRecDepth 8192 in
/-- C6 (failing input for byte-aligned passthrough): on `bufWrap` at the
byte-aligned cursor 2048, extracting 8 bits returns 1 (byte 0, read through
the wrapped index) while `buffer[2048 / 8] = buffer[256] = 0`. -/
theorem next_passthrough_failure :
    2048 % 8 = 0 ∧ 2048 + 8 ≤ 8 * bufWrap.length ∧
    (next bufWrap 2048 8).1 = 1 ∧ bufWrap.getD (2048 / 8) 0 = 0 := by
  decide

/-- Characterisation of the `doNext` facade relative to the width it really
passes on, `n % 256` (the `std::uint8_t(N)` conversion at the call site): the
call succeeds exactly when the asserted preconditions hold for the wrapped
width, then advances the read cursor by `n % 256`; otherwise the state is
unchanged. -/
theorem doNext_cursor_wrapped (t : A) (n : Nat) :
    ((doNext n t).1.isSome ↔ nextPre t.data.length t.cursor.read (n % 256)) ∧
    (nextPre t.data.length t.cursor.read (n % 256) →
      (doNext n t).2.cursor.read = t.cursor.read + n % 256) ∧
    (¬ nextPre t.data.length t.cursor.read (n % 256) → (doNext n t).2 = t) := by
  by_cases h : nextPre t.data.length t.cursor.read (n % 256) <;>
    simp [doNext, nextChecked, h, next_snd]

/-- C8 (failing input): C++ `doNext` converts the requested width through
`std::uint8_t` before `next` sees it, so a width of 257 on a fresh 1-byte
reader is silently wrapped to 1: the claimed precondition `1 ≤ n ≤ 8` is
false, yet the call succeeds and moves the read cursor — to `readPos + 1`,
not `readPos + 257` — instead of failing fast with the cursor unchanged. -/
theorem doNext_width_wrap_failure :
    ¬ (1 ≤ 257 ∧ (257 : Nat) ≤ 8) ∧
    (doNext 257 (⟨[253], ⟨0, 0⟩⟩ : A)).1.isSome = true ∧
    (doNext 257 (⟨[253], ⟨0, 0⟩⟩ : A)).2.cursor.read = 0 + 1 ∧
    (doNext 257 (⟨[253], ⟨0, 0⟩⟩ : A)).2.cursor.read ≠ 0 + 257 := by
  decide

/-- C9: a successful `doNext` call mutates only the read cursor: the write
cursor and the underlying buffer are unchanged. -/
theorem doNext_frame (t : A) (n : Nat) (h : (doNext n t).1.isSome = true) :
    (doNext n t).2.cursor.write = t.cursor.write ∧
    (doNext n t).2.data = t.data := by
  unfold doNext
  cases hnc : nextChecked t.data t.cursor.read (n % 256) <;> simp

/-- Witness for `doNext_frame` on a fresh reader over `[0xFD]` with `n = 3`. -/
theorem doNext_frame_witness :
    (doNext 3 (⟨[253], ⟨0, 0⟩⟩ : A)).2.cursor.write =
      (⟨[253], ⟨0, 0⟩⟩ : A).cursor.write ∧
    (doNext 3 (⟨[253], ⟨0, 0⟩⟩ : A)).2.data = (⟨[253], ⟨0, 0⟩⟩ : A).data :=
  doNext_frame (⟨[253], ⟨0, 0⟩⟩ : A) 3 (by decide)

set_option maxRecDepth 8192 in
/-- C10 (counterexample): two 257-byte buffers that agree at the claimed byte
indices `p / 8` and `(p + n - 1) / 8` (both 256) but differ at byte 0 give
different extraction results at `p = 2048`, `n = 1`, because the 8-bit
`ByteIndex` truncation makes the code read byte 0. -/
theorem next_byte_dependence_cex :
    bufWrap.length = bufZero.length ∧
    bufWrap.getD (2048 / 8) 0 = bufZero.getD (2048 / 8) 0 ∧
    bufWrap.getD ((2048 + 1 - 1) / 8) 0 = bufZero.getD ((2048 + 1 - 1) / 8) 0 ∧
    (next bufWrap 2048 1).1 ≠ (next bufZero 2048 1).1 := by
  decide

/-- C10 (amended): the result of `next` depends only on the buffer bytes at
the truncated indices `byteFirst = p / 8 % 256` and
`byteSecond = (p + n - 1) / 8 % 256`: same-size buffers agreeing there give
identical results. -/
theorem next_depends_only_on_truncated_bytes (d1 d2 : List Nat) (p n : Nat)
    (hlen : d1.length = d2.length)
    (hf : d1.getD (byteFirst p) 0 = d2.getD (byteFirst p) 0)
    (hsec : d1.getD (byteSecond p n) 0 = d2.getD (byteSecond p n) 0) :
    next d1 p n = next d2 p n := by
  simp only [next, hf, hsec]

/-- Witness for `next_depends_only_on_truncated_bytes`: `[7, 1]` and `[7, 2]`
agree at the (only) used byte index 0 for `p = 0`, `n = 8`. -/
theorem next_depends_only_on_truncated_bytes_witness :
    next [7, 1] 0 8 = next [7, 2] 0 8 :=
  next_depends_only_on_truncated_bytes [7, 1] [7, 2] 0 8 (by decide) (by decide)
    (by decide)

end BitReader
